import Mathlib

/-!
Shallow embedding of the odds-normalization pipeline of
`src/normaliz_odds.py` (Sports-Data-Toolkit).

Modelling conventions:
- Python floats are modelled as exact rationals (`ℚ`); `round(x, 4)` is
  modelled as round-half-to-even at 4 decimal places (Python's `round`).
- JSON dictionaries are modelled as structures whose fields are `Option`s:
  `d.get("k")` is the `Option` field itself, `d.get("k", [])` is
  `field.getD []`.
- Python exceptions are modelled with `Except PyErr`: an expression that can
  raise returns `Except PyErr α`, and an uncaught exception propagates as
  `.error` through the enclosing computation (the source has no
  `try`/`except`, so every raise aborts the enclosing call).
- File I/O itself is not embeddable; the result of opening and JSON-parsing
  one snapshot file is modelled by `LoadResult` (parsed document, malformed
  JSON, or an I/O failure), and the sink by `SnapshotOutput` (which rows were
  written to the JSON file and to the CSV file).
-/

/-- Python exception kinds that the embedded code can raise:
`TypeError` (from `None > 0` when a price is absent), `ZeroDivisionError`
(from `100 / abs(0)` or `p / 0`), `json.JSONDecodeError` (malformed input
file) and `OSError` (file-level I/O failure). -/
inductive PyErr where
  | typeError
  | zeroDivisionError
  | jsonDecodeError
  | osError
deriving DecidableEq

/-- Python `s.endswith(suffix)`, modelled on the character list of the
string. -/
def endswith (s suffix : String) : Bool :=
  suffix.data.reverse.isPrefixOf s.data.reverse

/-- Python true division `a / b`, which raises `ZeroDivisionError` when the
divisor is zero. -/
def pydiv (a b : ℚ) : Except PyErr ℚ :=
  if b = 0 then Except.error PyErr.zeroDivisionError else Except.ok (a / b)

/-- Outcome object of a market: `{ name, price }`; either key may be absent
(`o.get("name")`, `o.get("price")` return `None` then). -/
structure Outcome where
  name : Option String
  price : Option Int
deriving DecidableEq

/-- Market object of a bookmaker: `{ key, outcomes }`. -/
structure Market where
  key : Option String
  outcomes : Option (List Outcome)
deriving DecidableEq

/-- Bookmaker object of an event: `{ key, last_update, markets }`. -/
structure Bookmaker where
  key : Option String
  last_update : Option String
  markets : Option (List Market)
deriving DecidableEq

/-- Event object of a snapshot. -/
structure Event where
  id : Option String
  sport_key : Option String
  commence_time : Option String
  home_team : Option String
  away_team : Option String
  bookmakers : Option (List Bookmaker)
deriving DecidableEq

/-- Snapshot document: `{ events }`; the `events` key may be absent. -/
structure Snapshot where
  events : Option (List Event)
deriving DecidableEq

/-- Module-level constant `SNAPSHOT_FOLDER` of src/normaliz_odds.py. -/
def SNAPSHOT_FOLDER : String := "snapshots"

/-- Module-level constant `NORMALIZED_FOLDER` of src/normaliz_odds.py. -/
def NORMALIZED_FOLDER : String := "normalized"

/-- Module-level default `sport = "basketball_nba"` of src/normaliz_odds.py.
Inside `normalize_snapshot_file` the assignment `sport = event.get("sport_key")`
creates a function-local variable that shadows this global, so the global value
never reaches an output record. -/
def sport : String := "basketball_nba"

/-- Function `american_to_decimal(odds)` of src/normaliz_odds.py.
The argument is `o.get("price")`, so it may be `None`: Python then raises
`TypeError` at `odds > 0`. When `odds == 0` the `else` branch computes
`100 / abs(odds)` and raises `ZeroDivisionError`. -/
def american_to_decimal : Option Int → Except PyErr ℚ
  | none => Except.error PyErr.typeError
  | some odds =>
    if 0 < odds then Except.ok (1 + (odds : ℚ) / 100)
    else
      match pydiv 100 |(odds : ℚ)| with
      | Except.error err => Except.error err
      | Except.ok q => Except.ok (1 + q)

/-- Function `compute_implied_prob(decimal_odds)` of src/normaliz_odds.py:
`return 1 / decimal_odds`. Every call site passes a value produced by
`american_to_decimal`, which is strictly greater than 1, so the Python
division never raises there; it is modelled as total `ℚ` division. -/
def compute_implied_prob (decimal_odds : ℚ) : ℚ :=
  1 / decimal_odds

/-- List comprehension `[f(x) for x in xs]` where `f` may raise: elements are
evaluated left to right and the first exception propagates. -/
def mapExcept {α β : Type} (f : α → Except PyErr β) : List α → Except PyErr (List β)
  | [] => Except.ok []
  | a :: as =>
    match f a with
    | Except.error err => Except.error err
    | Except.ok b =>
      match mapExcept f as with
      | Except.error err => Except.error err
      | Except.ok bs => Except.ok (b :: bs)

/-- Function `remove_vig(probabilities)` of src/normaliz_odds.py:
`total = sum(probabilities); return [p / total for p in probabilities]`.
On the empty list the comprehension performs no division at all and returns
`[]`; on a non-empty list with `total == 0` the first division raises. -/
def remove_vig (probabilities : List ℚ) : Except PyErr (List ℚ) :=
  let total := probabilities.sum
  mapExcept (fun p => pydiv p total) probabilities

/-- Round-half-to-even of a rational to an integer, the behaviour of Python's
builtin `round`. -/
def roundHalfEven (x : ℚ) : ℤ :=
  if x - Rat.floor x < 1 / 2 then Rat.floor x
  else if 1 / 2 < x - Rat.floor x then Rat.floor x + 1
  else if Rat.floor x % 2 = 0 then Rat.floor x else Rat.floor x + 1

/-- Python `round(x, 4)`, used for the three derived fields of an output row. -/
def round4 (x : ℚ) : ℚ :=
  (roundHalfEven (x * 10000) : ℚ) / 10000

/-- Flat output row of src/normaliz_odds.py (the `row` dict built in
`normalize_snapshot_file`). -/
structure NormalizedRecord where
  event_id : Option String
  sport : Option String
  commence_time : Option String
  bookmaker : Option String
  market : Option String
  outcome : Option String
  american_odds : Option Int
  decimal_odds : ℚ
  implied_probability : ℚ
  fair_probability : ℚ
  last_update : Option String
deriving DecidableEq

/-- Construction of one `row` dict of `normalize_snapshot_file`
(src/normaliz_odds.py lines 62-74): ancestor context plus the outcome's own
fields and the three derived values rounded to 4 decimal places. The local
variable `sport` holds `event.get("sport_key")` of the current event. -/
def make_row (event : Event) (bookmaker : Bookmaker) (market : Market)
    (outcome : Outcome) (decimal_odds implied_prob fair_prob : ℚ) : NormalizedRecord :=
  { event_id := event.id
    sport := event.sport_key
    commence_time := event.commence_time
    bookmaker := bookmaker.key
    market := market.key
    outcome := outcome.name
    american_odds := outcome.price
    decimal_odds := round4 decimal_odds
    implied_probability := round4 implied_prob
    fair_probability := round4 fair_prob
    last_update := bookmaker.last_update }

/-- Loop `for idx, outcome in enumerate(market.get("outcomes", []))` of
`normalize_snapshot_file`: row idx combines outcome idx with index idx of the
three positionally aligned lists (which, as built, all have the same length
as the outcome list). -/
def build_rows (event : Event) (bookmaker : Bookmaker) (market : Market) :
    List Outcome → List ℚ → List ℚ → List ℚ → List NormalizedRecord
  | o :: os, d :: ds, ip :: ips, fp :: fps =>
    make_row event bookmaker market o d ip fp :: build_rows event bookmaker market os ds ips fps
  | _, _, _, _ => []

/-- Body of the innermost (per-market) loop of `normalize_snapshot_file`
(src/normaliz_odds.py lines 45-76): decimal odds for all outcomes, then
implied probabilities, then fair probabilities via `remove_vig`, then one row
per outcome. A raise from any conversion or division aborts the whole call. -/
def normalize_market (event : Event) (bookmaker : Bookmaker) (market : Market) :
    Except PyErr (List NormalizedRecord) :=
  match mapExcept (fun o => american_to_decimal o.price) (market.outcomes.getD []) with
  | Except.error err => Except.error err
  | Except.ok decimal_odds_list =>
    match remove_vig (decimal_odds_list.map compute_implied_prob) with
    | Except.error err => Except.error err
    | Except.ok fair_probs =>
      Except.ok (build_rows event bookmaker market (market.outcomes.getD [])
        decimal_odds_list (decimal_odds_list.map compute_implied_prob) fair_probs)

/-- Per-bookmaker portion of `normalize_snapshot_file`: the loop
`for market in bookmaker.get("markets", [])`, appending each market's rows. -/
def normalize_bookmaker (event : Event) (bookmaker : Bookmaker) :
    Except PyErr (List NormalizedRecord) :=
  match mapExcept (normalize_market event bookmaker) (bookmaker.markets.getD []) with
  | Except.error err => Except.error err
  | Except.ok rowss => Except.ok rowss.flatten

/-- Per-event portion of `normalize_snapshot_file`: the loop
`for bookmaker in event.get("bookmakers", [])`, appending each bookmaker's rows. -/
def normalize_event (event : Event) : Except PyErr (List NormalizedRecord) :=
  match mapExcept (normalize_bookmaker event) (event.bookmakers.getD []) with
  | Except.error err => Except.error err
  | Except.ok rowss => Except.ok rowss.flatten

/-- Function `normalize_snapshot_file` of src/normaliz_odds.py after the JSON
document has been parsed: the loop `for event in snapshot.get("events", [])`
accumulating `normalized_rows` in traversal order. (The file open and
`json.load` at the top of the source function are modelled separately by
`load_snapshot`, since file I/O is not embeddable.) -/
def normalize_snapshot_file (snapshot : Snapshot) : Except PyErr (List NormalizedRecord) :=
  match mapExcept normalize_event (snapshot.events.getD []) with
  | Except.error err => Except.error err
  | Except.ok rowss => Except.ok rowss.flatten

/-- Result of `open(...)` plus `json.load(f)` on one snapshot file: the parsed
document, or `json.JSONDecodeError` on malformed JSON, or `OSError` on a
file-level I/O failure. -/
inductive LoadResult where
  | ok (s : Snapshot)
  | parseError
  | ioError
deriving DecidableEq

/-- Raise behaviour of the loader: `json.load` raises on malformed JSON and
`open`/`read` raise on I/O failure; neither is caught anywhere in the source. -/
def load_snapshot : LoadResult → Except PyErr Snapshot
  | LoadResult.ok s => Except.ok s
  | LoadResult.parseError => Except.error PyErr.jsonDecodeError
  | LoadResult.ioError => Except.error PyErr.osError

/-- Files written for one snapshot by `normalize_all_snapshots`
(src/normaliz_odds.py lines 89-99): `json.dump(normalized_rows, ...)` always
runs, while the CSV block is guarded by `if normalized_rows:` (list
truthiness), so `csv_rows` is `none` exactly when the row list is empty. -/
structure SnapshotOutput where
  json_rows : List NormalizedRecord
  csv_rows : Option (List NormalizedRecord)
deriving DecidableEq

/-- Sink portion of the per-file loop body of `normalize_all_snapshots`. -/
def write_outputs (normalized_rows : List NormalizedRecord) : SnapshotOutput :=
  { json_rows := normalized_rows
    csv_rows := if normalized_rows.isEmpty then none else some normalized_rows }

/-- Function `normalize_all_snapshots` of src/normaliz_odds.py: iterate over
the directory listing, skip names not ending in ".json", and for each
remaining file load, normalize and write. Each file is a pair of its name and
its load result. The loop body contains no `try`/`except`, so the first
uncaught exception propagates out of the loop and aborts the whole batch. -/
def normalize_all_snapshots (files : List (String × LoadResult)) :
    Except PyErr (List SnapshotOutput) :=
  mapExcept
    (fun file =>
      match load_snapshot file.2 with
      | Except.error err => Except.error err
      | Except.ok snapshot =>
        match normalize_snapshot_file snapshot with
        | Except.error err => Except.error err
        | Except.ok normalized_rows => Except.ok (write_outputs normalized_rows))
    (files.filter (fun file => endswith file.1 ".json"))

/-! ## Helper lemmas -/

/-- Batteries' computable `Rat.floor` agrees with Mathlib's `Int.floor`. -/
theorem ratFloor_eq_intFloor (x : ℚ) : Rat.floor x = ⌊x⌋ := by
  rw [Rat.floor_def', Rat.floor_def]

/-- Round-half-to-even moves a rational by at most one half. -/
theorem abs_roundHalfEven_sub_le (x : ℚ) : |(roundHalfEven x : ℚ) - x| ≤ 1 / 2 := by
  have hfl : ((Rat.floor x : ℤ) : ℚ) ≤ x := by
    rw [ratFloor_eq_intFloor]; exact Int.floor_le x
  have hfu : x < ((Rat.floor x : ℤ) : ℚ) + 1 := by
    rw [ratFloor_eq_intFloor]; exact Int.lt_floor_add_one x
  unfold roundHalfEven
  split
  next h => rw [abs_le]; constructor <;> linarith
  next h =>
    split
    next h2 => push_cast; rw [abs_le]; constructor <;> linarith
    next h2 =>
      split
      next => rw [abs_le]; constructor <;> linarith
      next => push_cast; rw [abs_le]; constructor <;> linarith

/-- Rounding to 4 decimal places moves a rational by at most 1/20000. -/
theorem abs_round4_sub_le (x : ℚ) : |round4 x - x| ≤ 1 / 20000 := by
  have h := abs_roundHalfEven_sub_le (x * 10000)
  have h4 : round4 x - x = ((roundHalfEven (x * 10000) : ℚ) - x * 10000) / 10000 := by
    unfold round4; ring
  rw [h4, abs_div, abs_of_pos (show (0:ℚ) < 10000 by norm_num),
    div_le_iff₀ (show (0:ℚ) < 10000 by norm_num)]
  linarith

/-- Rounding fixes the value 1. -/
theorem round4_one : round4 1 = 1 := by with_unfolding_all rfl

/-- Dividing every element of a list divides its sum. -/
theorem sum_map_div (l : List ℚ) (t : ℚ) : (l.map (fun p => p / t)).sum = l.sum / t := by
  induction l with
  | nil => simp
  | cons a as ih => simp [ih, add_div]

/-- Rounding every element of a list moves the sum by at most 1/20000 per
element. -/
theorem sum_map_round4_near (l : List ℚ) :
    |(l.map round4).sum - l.sum| ≤ (l.length : ℚ) * (1 / 20000) := by
  induction l with
  | nil => simp
  | cons a as ih =>
    have h1 := abs_round4_sub_le a
    have h2 : |round4 a + (as.map round4).sum - (a + as.sum)| ≤
        |round4 a - a| + |(as.map round4).sum - as.sum| := by
      have he : round4 a + (as.map round4).sum - (a + as.sum) =
          (round4 a - a) + ((as.map round4).sum - as.sum) := by ring
      rw [he]; exact abs_add _ _
    simp only [List.map_cons, List.sum_cons, List.length_cons]
    push_cast
    linarith

/-- Inversion for `mapExcept` on a cons cell. -/
theorem mapExcept_cons_ok {α β : Type} {f : α → Except PyErr β} {a : α} {as : List α}
    {bs : List β} :
    mapExcept f (a :: as) = Except.ok bs ↔
      ∃ b tl, f a = Except.ok b ∧ mapExcept f as = Except.ok tl ∧ bs = b :: tl := by
  constructor
  · intro h
    simp only [mapExcept] at h
    cases hfa : f a with
    | error e => simp only [hfa] at h; exact Except.noConfusion h
    | ok b =>
      simp only [hfa] at h
      cases htl : mapExcept f as with
      | error e => simp only [htl] at h; exact Except.noConfusion h
      | ok tl =>
        simp only [htl, Except.ok.injEq] at h
        exact ⟨b, tl, rfl, rfl, h.symm⟩
  · rintro ⟨b, tl, hb, htl, rfl⟩
    simp only [mapExcept, hb, htl]

/-- Pointwise successful `f` makes `mapExcept` a plain `map`. -/
theorem mapExcept_ok_of_forall {α β : Type} {f : α → Except PyErr β} {g : α → β} :
    ∀ (l : List α), (∀ a ∈ l, f a = Except.ok (g a)) → mapExcept f l = Except.ok (l.map g) := by
  intro l
  induction l with
  | nil => intro _; rfl
  | cons a as ih =>
    intro h
    simp only [mapExcept, h a (List.mem_cons_self a as),
      ih (fun x hx => h x (List.mem_cons_of_mem a hx)), List.map_cons]

/-- A successful `mapExcept` preserves the length. -/
theorem mapExcept_ok_length {α β : Type} {f : α → Except PyErr β} :
    ∀ {l : List α} {bs : List β}, mapExcept f l = Except.ok bs → bs.length = l.length := by
  intro l
  induction l with
  | nil =>
    intro bs h
    simp only [mapExcept, Except.ok.injEq] at h
    subst h; rfl
  | cons a as ih =>
    intro bs h
    rw [mapExcept_cons_ok] at h
    obtain ⟨b, tl, _, htl, rfl⟩ := h
    simp [ih htl]

/-- Every element of a successful `mapExcept` output comes from an input
element. -/
theorem mapExcept_ok_mem {α β : Type} {f : α → Except PyErr β} :
    ∀ {l : List α} {bs : List β} {b : β}, mapExcept f l = Except.ok bs → b ∈ bs →
      ∃ a ∈ l, f a = Except.ok b := by
  intro l
  induction l with
  | nil =>
    intro bs b h hb
    simp only [mapExcept, Except.ok.injEq] at h
    subst h; simp at hb
  | cons a as ih =>
    intro bs b h hb
    rw [mapExcept_cons_ok] at h
    obtain ⟨b0, tl, hb0, htl, rfl⟩ := h
    rcases List.mem_cons.mp hb with h1 | h1
    · exact ⟨a, List.mem_cons_self a as, h1 ▸ hb0⟩
    · obtain ⟨x, hx, hfx⟩ := ih htl h1
      exact ⟨x, List.mem_cons_of_mem a hx, hfx⟩

/-- With a nonzero total, `remove_vig` performs the proportional rescale. -/
theorem remove_vig_ok (ps : List ℚ) (h : ps.sum ≠ 0) :
    remove_vig ps = Except.ok (ps.map (fun p => p / ps.sum)) := by
  exact mapExcept_ok_of_forall ps (fun p _ => by simp [pydiv, h])

/-- With a nonzero total, the rescaled probabilities sum to exactly 1. -/
theorem remove_vig_sum (ps : List ℚ) (h : ps.sum ≠ 0) {qs : List ℚ}
    (hq : remove_vig ps = Except.ok qs) : qs.sum = 1 := by
  rw [remove_vig_ok ps h, Except.ok.injEq] at hq
  subst hq
  rw [sum_map_div, div_self h]

/-- On a nonzero integer the converter succeeds with the contract's formula,
and the result exceeds 1. -/
theorem american_to_decimal_pos (p : ℤ) (hp : p ≠ 0) :
    american_to_decimal (some p) =
      Except.ok (if 0 < p then 1 + (p : ℚ) / 100 else 1 + 100 / |(p : ℚ)|) ∧
      1 < (if 0 < p then 1 + (p : ℚ) / 100 else 1 + 100 / |(p : ℚ)|) := by
  by_cases hpos : 0 < p
  · have hq : (0 : ℚ) < (p : ℚ) / 100 := by
      have : (0 : ℚ) < (p : ℚ) := by exact_mod_cast hpos
      positivity
    constructor
    · simp [american_to_decimal, hpos]
    · rw [if_pos hpos]; linarith
  · have habs : |(p : ℚ)| ≠ 0 := abs_ne_zero.mpr (Int.cast_ne_zero.mpr hp)
    have habspos : (0 : ℚ) < |(p : ℚ)| := abs_pos.mpr (Int.cast_ne_zero.mpr hp)
    have hq : (0 : ℚ) < 100 / |(p : ℚ)| := by positivity
    constructor
    · simp [american_to_decimal, hpos, pydiv, habs]
    · rw [if_neg hpos]; linarith

/-- A successful conversion of a present, nonzero price exceeds 1. -/
theorem american_ok_gt_one {o : Outcome} (h1 : o.price ≠ none) (h2 : o.price ≠ some 0)
    {d : ℚ} (hd : american_to_decimal o.price = Except.ok d) : 1 < d := by
  cases hop : o.price with
  | none => exact absurd hop h1
  | some p =>
    have hp : p ≠ 0 := fun he => h2 (by rw [hop, he])
    obtain ⟨hval, hgt⟩ := american_to_decimal_pos p hp
    rw [hop, hval, Except.ok.injEq] at hd
    rw [hd] at hgt
    exact hgt

/-- Every row built by the flattening loop carries the sport of its event. -/
theorem build_rows_sport (e : Event) (b : Bookmaker) (m : Market) :
    ∀ (os : List Outcome) (ds ips fps : List ℚ) (r : NormalizedRecord),
      r ∈ build_rows e b m os ds ips fps → r.sport = e.sport_key := by
  intro os
  induction os with
  | nil => intro ds ips fps r hr; simp [build_rows] at hr
  | cons o os ih =>
    intro ds ips fps r hr
    cases ds with
    | nil => simp [build_rows] at hr
    | cons d ds =>
      cases ips with
      | nil => simp [build_rows] at hr
      | cons ip ips =>
        cases fps with
        | nil => simp [build_rows] at hr
        | cons fp fps =>
          simp only [build_rows, List.mem_cons] at hr
          rcases hr with h | h
          · subst h; rfl
          · exact ih ds ips fps r h

/-- With positionally aligned lists, the fair-probability column of the built
rows is the rounded fair-probability list. -/
theorem build_rows_map_fair (e : Event) (b : Bookmaker) (m : Market) :
    ∀ (os : List Outcome) (ds ips fps : List ℚ),
      ds.length = os.length → ips.length = os.length → fps.length = os.length →
      (build_rows e b m os ds ips fps).map (fun r => r.fair_probability) = fps.map round4 := by
  intro os
  induction os with
  | nil =>
    intro ds ips fps h1 h2 h3
    simp only [List.length_nil, List.length_eq_zero] at h1 h2 h3
    subst h1; subst h2; subst h3
    simp [build_rows]
  | cons o os ih =>
    intro ds ips fps h1 h2 h3
    cases ds with
    | nil => simp at h1
    | cons d ds =>
      cases ips with
      | nil => simp at h2
      | cons ip ips =>
        cases fps with
        | nil => simp at h3
        | cons fp fps =>
          simp only [List.length_cons, Nat.succ.injEq] at h1 h2 h3
          simp only [build_rows, List.map_cons]
          rw [ih ds ips fps h1 h2 h3]
          rfl

/-- With positionally aligned lists, the flattening loop emits one row per
outcome. -/
theorem build_rows_length (e : Event) (b : Bookmaker) (m : Market) :
    ∀ (os : List Outcome) (ds ips fps : List ℚ),
      ds.length = os.length → ips.length = os.length → fps.length = os.length →
      (build_rows e b m os ds ips fps).length = os.length := by
  intro os
  induction os with
  | nil =>
    intro ds ips fps h1 h2 h3
    simp only [List.length_nil, List.length_eq_zero] at h1 h2 h3
    subst h1; subst h2; subst h3
    simp [build_rows]
  | cons o os ih =>
    intro ds ips fps h1 h2 h3
    cases ds with
    | nil => simp at h1
    | cons d ds =>
      cases ips with
      | nil => simp at h2
      | cons ip ips =>
        cases fps with
        | nil => simp at h3
        | cons fp fps =>
          simp only [List.length_cons, Nat.succ.injEq] at h1 h2 h3
          simp only [build_rows, List.length_cons]
          rw [ih ds ips fps h1 h2 h3]

/-- Inversion of a successful `normalize_market` run into its three stages. -/
theorem normalize_market_ok {e : Event} {b : Bookmaker} {m : Market}
    {rows : List NormalizedRecord} (h : normalize_market e b m = Except.ok rows) :
    ∃ ds fps,
      mapExcept (fun o => american_to_decimal o.price) (m.outcomes.getD []) = Except.ok ds ∧
      remove_vig (ds.map compute_implied_prob) = Except.ok fps ∧
      rows = build_rows e b m (m.outcomes.getD []) ds (ds.map compute_implied_prob) fps := by
  unfold normalize_market at h
  cases hds : mapExcept (fun o => american_to_decimal o.price) (m.outcomes.getD []) with
  | error err => simp only [hds] at h; exact Except.noConfusion h
  | ok ds =>
    simp only [hds] at h
    cases hfps : remove_vig (ds.map compute_implied_prob) with
    | error err => simp only [hfps] at h; exact Except.noConfusion h
    | ok fps =>
      simp only [hfps, Except.ok.injEq] at h
      exact ⟨ds, fps, rfl, hfps, h.symm⟩

/-- Every row of a successful `normalize_market` carries the sport of its
event. -/
theorem normalize_market_sport {e : Event} {b : Bookmaker} {m : Market}
    {rows : List NormalizedRecord} (h : normalize_market e b m = Except.ok rows) :
    ∀ r ∈ rows, r.sport = e.sport_key := by
  obtain ⟨ds, fps, _, _, hrows⟩ := normalize_market_ok h
  intro r hr
  rw [hrows] at hr
  exact build_rows_sport e b m _ _ _ _ r hr

/-- Every row of a successful `normalize_bookmaker` carries the sport of its
event. -/
theorem normalize_bookmaker_sport {e : Event} {b : Bookmaker}
    {rows : List NormalizedRecord} (h : normalize_bookmaker e b = Except.ok rows) :
    ∀ r ∈ rows, r.sport = e.sport_key := by
  unfold normalize_bookmaker at h
  cases hms : mapExcept (normalize_market e b) (b.markets.getD []) with
  | error err => simp only [hms] at h; exact Except.noConfusion h
  | ok rowss =>
    simp only [hms, Except.ok.injEq] at h
    subst h
    intro r hr
    rw [List.mem_flatten] at hr
    obtain ⟨sub, hsub, hrsub⟩ := hr
    obtain ⟨mkt, _, hok⟩ := mapExcept_ok_mem hms hsub
    exact normalize_market_sport hok r hrsub

/-! ## Claim theorems -/

/-- Event used in concrete market-level computations. -/
def evC1 : Event :=
  { id := some "ev1", sport_key := some "soccer_epl", commence_time := some "t1",
    home_team := some "H", away_team := some "A", bookmakers := none }

/-- Bookmaker used in concrete market-level computations. -/
def bkC1 : Bookmaker :=
  { key := some "bookie", last_update := some "u1", markets := none }

/-- A three-way market with three equal prices of +200. -/
def mkC1ce : Market :=
  { key := some "h2h",
    outcomes := some [{ name := some "X", price := some 200 },
      { name := some "Y", price := some 200 }, { name := some "Z", price := some 200 }] }

/-- C1 is false as stated: the emitted `fair_probability` values are rounded
to 4 decimal places, and for a market of three equal +200 prices each fair
probability 1/3 rounds to 0.3333, so the emitted values sum to 0.9999, which
is not within 1e-6 of 1.0. -/
theorem C1_rounded_sum_misses_tolerance :
    Except.map (fun rows => (rows.map (fun r => r.fair_probability)).sum)
      (normalize_market evC1 bkC1 mkC1ce) = Except.ok (9999 / 10000) ∧
    ¬ |(9999 : ℚ) / 10000 - 1| ≤ 1 / 1000000 := by
  constructor
  · with_unfolding_all rfl
  · rw [not_le]
    rw [abs_of_neg (by norm_num : (9999 : ℚ) / 10000 - 1 < 0)]
    norm_num

/-- C1 (amended): for every market with at least one outcome, all of whose
prices are present and nonzero, the fair probabilities computed before
rounding sum to exactly 1, so the emitted (4-decimal rounded)
`fair_probability` values of that market's records sum to 1.0 within
n * 5e-5 where n is the number of records. -/
theorem C1_fair_probability_sum (e : Event) (b : Bookmaker) (m : Market)
    (rows : List NormalizedRecord)
    (hall : ∀ o ∈ m.outcomes.getD [], o.price ≠ none ∧ o.price ≠ some 0)
    (hne : m.outcomes.getD [] ≠ [])
    (hok : normalize_market e b m = Except.ok rows) :
    |(rows.map (fun r => r.fair_probability)).sum - 1| ≤ (rows.length : ℚ) * (1 / 20000) := by
  obtain ⟨ds, fps, hds, hfps, hrows⟩ := normalize_market_ok hok
  have hlends : ds.length = (m.outcomes.getD []).length := mapExcept_ok_length hds
  have hdgt : ∀ d ∈ ds, 1 < d := by
    intro d hd
    obtain ⟨o, ho, hokd⟩ := mapExcept_ok_mem hds hd
    exact american_ok_gt_one (hall o ho).1 (hall o ho).2 hokd
  have hips : ∀ q ∈ ds.map compute_implied_prob, 0 < q := by
    intro q hq
    rw [List.mem_map] at hq
    obtain ⟨d, hd, rfl⟩ := hq
    have h1 := hdgt d hd
    unfold compute_implied_prob
    exact one_div_pos.mpr (by linarith)
  have hipsne : ds.map compute_implied_prob ≠ [] := by
    intro hnil
    apply hne
    have hdsnil : ds = [] := List.map_eq_nil_iff.mp hnil
    rw [hdsnil] at hlends
    exact (List.length_eq_zero.mp hlends.symm)
  have hsumpos : 0 < (ds.map compute_implied_prob).sum :=
    List.sum_pos _ hips hipsne
  have hsumne : (ds.map compute_implied_prob).sum ≠ 0 := ne_of_gt hsumpos
  have hfair_sum : fps.sum = 1 := remove_vig_sum _ hsumne hfps
  have hfps2 := hfps
  rw [remove_vig_ok _ hsumne] at hfps2
  simp only [Except.ok.injEq] at hfps2
  have hlenips : (ds.map compute_implied_prob).length = (m.outcomes.getD []).length := by
    rw [List.length_map, hlends]
  have hlenfps : fps.length = (m.outcomes.getD []).length := by
    rw [← hfps2, List.length_map, hlenips]
  have hmapfair : rows.map (fun r => r.fair_probability) = fps.map round4 := by
    rw [hrows]
    exact build_rows_map_fair e b m _ ds _ fps hlends hlenips hlenfps
  have hrowslen : rows.length = (m.outcomes.getD []).length := by
    rw [hrows]
    exact build_rows_length e b m _ ds _ fps hlends hlenips hlenfps
  have hlen2 : rows.length = fps.length := by rw [hrowslen, hlenfps]
  rw [hmapfair, hlen2]
  have hfinal := sum_map_round4_near fps
  rw [hfair_sum] at hfinal
  exact hfinal

/-- A two-outcome head-to-head market with prices +150 and -200 (the spec's
round-trip example). -/
def mkC1w : Market :=
  { key := some "h2h",
    outcomes := some [{ name := some "H", price := some 150 },
      { name := some "A", price := some (-200) }] }

/-- Rows produced for `mkC1w`: decimal odds 2.5 and 1.5, implied
probabilities 0.4 and 0.6667 (rounded), fair probabilities 0.375 and 0.625. -/
def rowsC1w : List NormalizedRecord :=
  [{ event_id := some "ev1", sport := some "soccer_epl", commence_time := some "t1",
     bookmaker := some "bookie", market := some "h2h", outcome := some "H",
     american_odds := some 150, decimal_odds := 5 / 2, implied_probability := 2 / 5,
     fair_probability := 3 / 8, last_update := some "u1" },
   { event_id := some "ev1", sport := some "soccer_epl", commence_time := some "t1",
     bookmaker := some "bookie", market := some "h2h", outcome := some "A",
     american_odds := some (-200), decimal_odds := 3 / 2,
     implied_probability := 6667 / 10000, fair_probability := 5 / 8,
     last_update := some "u1" }] 

/-- Witness for `C1_fair_probability_sum` at the spec's round-trip example. -/
theorem C1_fair_probability_sum_witness :
    |(rowsC1w.map (fun r => r.fair_probability)).sum - 1| ≤
      (rowsC1w.length : ℚ) * (1 / 20000) :=
  C1_fair_probability_sum evC1 bkC1 mkC1w rowsC1w
    (by decide) (by decide) (by with_unfolding_all rfl)

/-- Market whose outcomes have prices 0 and +150. -/
def mkC2 : Market :=
  { key := some "h2h"
    outcomes := some [{ name := some "Zero", price := some 0 },
      { name := some "Good", price := some 150 }] }

/-- Bookmaker holding `mkC2`. -/
def bkC2 : Bookmaker :=
  { key := some "bk", last_update := none, markets := some [mkC2] }

/-- Event holding `bkC2`. -/
def evC2 : Event :=
  { id := some "e2", sport_key := some "soccer_epl", commence_time := none,
    home_team := none, away_team := none, bookmakers := some [bkC2] }

/-- Snapshot with one market whose outcomes have prices 0 and +150. -/
def snapC2 : Snapshot := { events := some [evC2] }

/-- C2 fails on the code: a zero price makes `american_to_decimal` raise
`ZeroDivisionError` (from `100 / abs(0)`), not an InvalidOdds error, and the
uncaught exception aborts the whole file: `normalize_snapshot_file` returns
the error and the other (+150) outcome is not normalized either. -/
theorem C2_zero_price_aborts_file :
    american_to_decimal (some 0) = Except.error PyErr.zeroDivisionError ∧
    normalize_snapshot_file snapC2 = Except.error PyErr.zeroDivisionError := by
  constructor
  · with_unfolding_all rfl
  · with_unfolding_all rfl

/-- A single-outcome market with price +150. -/
def mkC3ce : Market :=
  { key := some "h2h", outcomes := some [{ name := some "Only", price := some 150 }] }

/-- C3 is false as stated: for a single-outcome market with price +150 the
emitted record has `fair_probability` 1.0 (the implied probability divided by
itself) but `implied_probability` 0.4, so the two are not equal. -/
theorem C3_single_outcome_fair_ne_implied :
    Except.map (fun rows => rows.map (fun r => (r.fair_probability, r.implied_probability)))
      (normalize_market evC1 bkC1 mkC3ce) = Except.ok [(1, 2 / 5)] ∧
    (1 : ℚ) ≠ 2 / 5 := by
  constructor
  · with_unfolding_all rfl
  · norm_num

/-- C3 (amended): for a market containing exactly one outcome with a present,
nonzero price, the emitted record has `fair_probability` equal to 1.0 (vig
removal rescales the single implied probability to 1, it is not a no-op),
while `implied_probability` equals `round4 (1/decimal_odds)`. -/
theorem C3_single_outcome_market (e : Event) (b : Bookmaker) (m : Market)
    (o : Outcome) (d : ℚ)
    (hone : m.outcomes.getD [] = [o])
    (h1 : o.price ≠ none) (h2 : o.price ≠ some 0)
    (hd : american_to_decimal o.price = Except.ok d) :
    normalize_market e b m =
      Except.ok [make_row e b m o d (compute_implied_prob d) 1] ∧
    (make_row e b m o d (compute_implied_prob d) 1).fair_probability = 1 ∧
    (make_row e b m o d (compute_implied_prob d) 1).implied_probability =
      round4 (1 / d) := by
  have hgt : 1 < d := american_ok_gt_one h1 h2 hd
  have hipos : 0 < compute_implied_prob d := one_div_pos.mpr (by linarith)
  have hsumne : ([compute_implied_prob d] : List ℚ).sum ≠ 0 := by
    simp only [List.sum_cons, List.sum_nil, add_zero]
    exact ne_of_gt hipos
  have hmap : mapExcept (fun o2 => american_to_decimal o2.price) [o] = Except.ok [d] := by
    simp only [mapExcept, hd]
  have hrv : remove_vig (([d] : List ℚ).map compute_implied_prob) = Except.ok [1] := by
    have hm : (([d] : List ℚ).map compute_implied_prob) = [compute_implied_prob d] := rfl
    rw [hm, remove_vig_ok _ hsumne]
    congr 1
    simp only [List.map_cons, List.map_nil, List.sum_cons, List.sum_nil, add_zero]
    rw [div_self (ne_of_gt hipos)]
  refine ⟨?_, round4_one, rfl⟩
  unfold normalize_market
  simp only [hone, hmap, hrv]
  rfl

/-- The outcome of the single-outcome witness market. -/
def oC3w : Outcome := { name := some "Only", price := some 150 }

/-- A single-outcome market holding `oC3w`. -/
def mkC3w : Market := { key := some "h2h", outcomes := some [oC3w] }

/-- Witness for `C3_single_outcome_market` at price +150 (decimal odds 5/2). -/
theorem C3_single_outcome_market_witness :
    normalize_market evC1 bkC1 mkC3w =
      Except.ok [make_row evC1 bkC1 mkC3w oC3w (5 / 2) (compute_implied_prob (5 / 2)) 1] ∧
    (make_row evC1 bkC1 mkC3w oC3w (5 / 2) (compute_implied_prob (5 / 2)) 1).fair_probability = 1 ∧
    (make_row evC1 bkC1 mkC3w oC3w (5 / 2) (compute_implied_prob (5 / 2)) 1).implied_probability =
      round4 (1 / (5 / 2)) :=
  C3_single_outcome_market evC1 bkC1 mkC3w oC3w (5 / 2) rfl (by decide) (by decide)
    (by with_unfolding_all rfl)

/-- Market whose outcomes have an absent price and -200. -/
def mkC4 : Market :=
  { key := some "h2h"
    outcomes := some [{ name := some "NoPrice", price := none },
      { name := some "Good", price := some (-200) }] }

/-- Bookmaker holding `mkC4`. -/
def bkC4 : Bookmaker :=
  { key := some "bk", last_update := none, markets := some [mkC4] }

/-- Event holding `bkC4`. -/
def evC4 : Event :=
  { id := some "e4", sport_key := some "soccer_epl", commence_time := none,
    home_team := none, away_team := none, bookmakers := some [bkC4] }

/-- Snapshot with one market whose outcomes have an absent price and -200. -/
def snapC4 : Snapshot := { events := some [evC4] }

/-- C4 fails on the code: an absent price reaches `american_to_decimal` as
`None`, where `None > 0` raises `TypeError`; the uncaught exception aborts
the whole file, so nothing propagates as null and the other (-200) outcome is
not normalized either. -/
theorem C4_missing_price_aborts_file :
    american_to_decimal none = Except.error PyErr.typeError ∧
    normalize_snapshot_file snapC4 = Except.error PyErr.typeError := by
  constructor
  · rfl
  · with_unfolding_all rfl

/-- C5: for every nonzero integer American odds value the converter returns
1 + o/100 when o > 0 and 1 + 100/|o| when o < 0, and the result is strictly
greater than 1. -/
theorem C5_american_to_decimal_formula (o : ℤ) (h : o ≠ 0) :
    american_to_decimal (some o) =
      Except.ok (if 0 < o then 1 + (o : ℚ) / 100 else 1 + 100 / |(o : ℚ)|) ∧
    1 < (if 0 < o then 1 + (o : ℚ) / 100 else 1 + 100 / |(o : ℚ)|) :=
  american_to_decimal_pos o h

/-- Witness for `C5_american_to_decimal_formula` at +150 and -200. -/
theorem C5_american_to_decimal_formula_witness :
    american_to_decimal (some 150) = Except.ok (5 / 2) ∧
    american_to_decimal (some (-200)) = Except.ok (3 / 2) ∧
    (1 : ℚ) < 5 / 2 ∧ (1 : ℚ) < 3 / 2 := by
  have h1 := C5_american_to_decimal_formula 150 (by decide)
  have h2 := C5_american_to_decimal_formula (-200) (by decide)
  norm_num at h1 h2
  exact ⟨h1, h2, by norm_num, by norm_num⟩

/-- C6: an empty events list yields an empty record list, so the JSON file is
written as an empty array and no CSV file is written; in general the JSON
file always receives exactly the record list, and the CSV file is written if
and only if the record list is non-empty. -/
theorem C6_empty_snapshot_and_csv_guard :
    normalize_snapshot_file { events := some [] } = Except.ok [] ∧
    (write_outputs []).json_rows = ([] : List NormalizedRecord) ∧
    (write_outputs []).csv_rows = none ∧
    ∀ rows : List NormalizedRecord,
      (write_outputs rows).json_rows = rows ∧
      ((write_outputs rows).csv_rows ≠ none ↔ rows ≠ []) := by
  refine ⟨rfl, rfl, rfl, fun rows => ⟨rfl, ?_⟩⟩
  by_cases hr : rows = []
  · subst hr; simp [write_outputs]
  · simp [write_outputs, hr, List.isEmpty_iff]

/-- A sample output record used to instantiate the CSV guard. -/
def rC6 : NormalizedRecord :=
  { event_id := some "ev1", sport := some "soccer_epl", commence_time := none,
    bookmaker := some "bookie", market := some "h2h", outcome := some "O",
    american_odds := some 100, decimal_odds := 2, implied_probability := 1 / 2,
    fair_probability := 1, last_update := none }

/-- Witness for `C6_empty_snapshot_and_csv_guard` at a one-record list. -/
theorem C6_empty_snapshot_and_csv_guard_witness :
    (write_outputs [rC6]).json_rows = [rC6] ∧
    ((write_outputs [rC6]).csv_rows ≠ none ↔ ([rC6] : List NormalizedRecord) ≠ []) :=
  C6_empty_snapshot_and_csv_guard.2.2.2 [rC6]

/-- C7: `remove_vig` applied to the empty sequence returns the empty list
(the comprehension performs no division at all), and a market whose outcome
list is present but empty produces zero records and no error. -/
theorem C7_empty_market_no_records :
    remove_vig [] = Except.ok [] ∧
    ∀ (e : Event) (b : Bookmaker) (m : Market), m.outcomes = some [] →
      normalize_market e b m = Except.ok [] := by
  refine ⟨rfl, ?_⟩
  intro e b m hm
  unfold normalize_market
  simp only [hm, Option.getD_some]
  rfl

/-- A market with an empty outcome list. -/
def mkC7 : Market := { key := some "h2h", outcomes := some [] }

/-- Witness for `C7_empty_market_no_records` at a concrete empty market. -/
theorem C7_empty_market_no_records_witness :
    remove_vig [] = Except.ok [] ∧ normalize_market evC1 bkC1 mkC7 = Except.ok [] :=
  ⟨C7_empty_market_no_records.1, C7_empty_market_no_records.2 evC1 bkC1 mkC7 rfl⟩

/-- C8 fails on the code: the per-file loop of `normalize_all_snapshots`
contains no exception handling, so a malformed-JSON file aborts the whole
batch before the remaining files are processed, and an I/O error does the
same; the good file alone would have processed fine. -/
theorem C8_bad_file_aborts_batch :
    normalize_all_snapshots [("bad.json", LoadResult.parseError),
      ("good.json", LoadResult.ok { events := some [] })] =
      Except.error PyErr.jsonDecodeError ∧
    normalize_all_snapshots [("io.json", LoadResult.ioError),
      ("good.json", LoadResult.ok { events := some [] })] =
      Except.error PyErr.osError ∧
    normalize_all_snapshots [("good.json", LoadResult.ok { events := some [] })] =
      Except.ok [{ json_rows := [], csv_rows := none }] := by
  refine ⟨?_, ?_, ?_⟩ <;> with_unfolding_all rfl

/-- C9: every record emitted for an event carries that event's `sport_key` as
its `sport` field, and therefore never the module-level default `sport` when
the event's sport differs from it. -/
theorem C9_record_sport_from_event (e : Event) (rows : List NormalizedRecord)
    (h : normalize_event e = Except.ok rows) :
    ∀ r ∈ rows, r.sport = e.sport_key ∧
      (e.sport_key ≠ some sport → r.sport ≠ some sport) := by
  unfold normalize_event at h
  cases hbs : mapExcept (normalize_bookmaker e) (e.bookmakers.getD []) with
  | error err => simp only [hbs] at h; exact Except.noConfusion h
  | ok rowss =>
    simp only [hbs, Except.ok.injEq] at h
    subst h
    intro r hr
    rw [List.mem_flatten] at hr
    obtain ⟨sub, hsub, hrsub⟩ := hr
    obtain ⟨bk, _, hok⟩ := mapExcept_ok_mem hbs hsub
    have hs := normalize_bookmaker_sport hok r hrsub
    refine ⟨hs, fun hne => ?_⟩
    rw [hs]
    exact hne

/-- Market used by the C9 witness events. -/
def mkC9 : Market :=
  { key := some "h2h", outcomes := some [{ name := some "O", price := some 100 }] }

/-- Bookmaker used by the C9 witness events. -/
def bkC9 : Bookmaker :=
  { key := some "b9", last_update := none, markets := some [mkC9] }

/-- A soccer event. -/
def evC9a : Event :=
  { id := some "ea", sport_key := some "soccer_epl", commence_time := none,
    home_team := none, away_team := none, bookmakers := some [bkC9] }

/-- A tennis event, distinct sport in the same snapshot. -/
def evC9b : Event :=
  { id := some "eb", sport_key := some "tennis_atp", commence_time := none,
    home_team := none, away_team := none, bookmakers := some [bkC9] }

/-- Record emitted for `evC9a`. -/
def rC9a : NormalizedRecord :=
  { event_id := some "ea", sport := some "soccer_epl", commence_time := none,
    bookmaker := some "b9", market := some "h2h", outcome := some "O",
    american_odds := some 100, decimal_odds := 2, implied_probability := 1 / 2,
    fair_probability := 1, last_update := none }

/-- Record emitted for `evC9b`. -/
def rC9b : NormalizedRecord :=
  { event_id := some "eb", sport := some "tennis_atp", commence_time := none,
    bookmaker := some "b9", market := some "h2h", outcome := some "O",
    american_odds := some 100, decimal_odds := 2, implied_probability := 1 / 2,
    fair_probability := 1, last_update := none }

/-- Witness for `C9_record_sport_from_event`: two events of different sports
each propagate their own `sport_key` into their records. -/
theorem C9_record_sport_from_event_witness :
    rC9a.sport = some "soccer_epl" ∧ rC9b.sport = some "tennis_atp" :=
  ⟨(C9_record_sport_from_event evC9a [rC9a] (by with_unfolding_all rfl) rC9a
      (by simp)).1,
   (C9_record_sport_from_event evC9b [rC9b] (by with_unfolding_all rfl) rC9b
      (by simp)).1⟩

/-- C10: a snapshot without an `events` key yields the empty record list, and
a missing `bookmakers`, `markets` or `outcomes` key is likewise treated as
the empty collection, producing no error. -/
theorem C10_missing_keys_empty :
    normalize_snapshot_file { events := none } = Except.ok [] ∧
    (∀ e : Event, normalize_event { e with bookmakers := none } = Except.ok []) ∧
    (∀ (e : Event) (b : Bookmaker),
      normalize_bookmaker e { b with markets := none } = Except.ok []) ∧
    (∀ (e : Event) (b : Bookmaker) (m : Market),
      normalize_market e b { m with outcomes := none } = Except.ok []) :=
  ⟨rfl, fun _ => rfl, fun _ _ => rfl, fun _ _ _ => rfl⟩

/-- Witness for `C10_missing_keys_empty` at concrete inputs. -/
theorem C10_missing_keys_empty_witness :
    normalize_snapshot_file { events := none } = Except.ok [] ∧
    normalize_event { evC1 with bookmakers := none } = Except.ok [] ∧
    normalize_bookmaker evC1 { bkC1 with markets := none } = Except.ok [] ∧
    normalize_market evC1 bkC1 { mkC1w with outcomes := none } = Except.ok [] :=
  ⟨C10_missing_keys_empty.1, C10_missing_keys_empty.2.1 evC1,
   C10_missing_keys_empty.2.2.1 evC1 bkC1, C10_missing_keys_empty.2.2.2 evC1 bkC1 mkC1w⟩
